import Mathlib

/-!
Verification of the drag-and-drop example pages of `dnd.krishnaaa.com`.

The repository is a set of self-contained demo pages.  Each page keeps an
ordered collection of items (optionally partitioned into named containers),
and mutates it in an end-of-drag callback (`handleDragEnd`) by array
move / splice, with a reset-to-initial-state action; one page persists its
state to browser local storage.

This file gives a shallow embedding of that state-handling code:

* `Js` models the JavaScript array primitives actually used by the pages
  (`Array.prototype.splice` index normalization, `findIndex` / `indexOf`
  returning `-1`, and `arrayMove` from the `@dnd-kit/sortable` library);
* objects of the form `Record<string, Item[]>` are modelled as association
  lists `List (String × List α)` whose order is the object's key order,
  with `objGet` / `objSet` modelling property access and the
  `{...prev, [k]: v}` update;
* each page's `handleDragEnd` (and the free-positioning page's local
  storage effects) is transcribed from the page source.  Results that
  JavaScript can produce only by putting `undefined` into a typed slot, or
  by throwing (spreading `undefined`), are modelled as `Option.none`.
-/

namespace DndSpec

/-! ## JavaScript array primitives -/

namespace Js

/-- Normalized start index of `Array.prototype.splice(start, ...)` on an
array of length `n`: a negative `start` counts from the end (clamped to
`0`), a positive one is clamped to `n`. -/
def spliceStart (n : Nat) (i : Int) : Nat :=
  (if i < 0 then max ((n : Int) + i) 0 else min i (n : Int)).toNat

/-- Element removed by `arr.splice(i, 1)`, if any (none when the normalized
start is past the end of the array). -/
def spliceRemoved? (l : List α) (i : Int) : Option α :=
  l.get? (spliceStart l.length i)

/-- Result of `arr.splice(i, 1)` on the array itself: deletes one element
at the normalized start index (no change when past the end). -/
def spliceRemove1 (l : List α) (i : Int) : List α :=
  l.eraseIdx (spliceStart l.length i)

/-- Result of `arr.splice(i, 0, x)`: inserts `x` at the normalized start
index. -/
def spliceInsert1 (l : List α) (i : Int) (x : α) : List α :=
  l.insertIdx (spliceStart l.length i) x

/-- Result of `arr.findIndex(p)` / `arr.indexOf(x)`: the first matching
index, or `-1` when there is no match. -/
def findIndex (p : α → Bool) (l : List α) : Int :=
  match l.findIdx? p with
  | some n => (n : Int)
  | none => -1

/-- Models `arrayMove` from `@dnd-kit/sortable`:
`newArray.splice(to < 0 ? newArray.length + to : to, 0, newArray.splice(from, 1)[0])`
on a copy of the array, where the first argument is evaluated with the
original length and the inner splice runs before the outer one.  When the
inner splice removes nothing, JavaScript would insert `undefined` into the
array; that untypeable result is modelled as `none`. -/
def arrayMove (l : List α) (i j : Int) : Option (List α) :=
  let insRaw : Int := if j < 0 then (l.length : Int) + j else j
  match spliceRemoved? l i with
  | none => none
  | some x => some (spliceInsert1 (spliceRemove1 l i) insRaw x)

end Js

/-- Payload of a `DragEndEvent` as the pages use it: the id of the dragged
element and the id of the droppable it is over (absent when the drag ended
over no target). -/
structure DragEndEvt where
  active : String
  over : Option String
deriving DecidableEq, Repr

/-! ## Sortable-list page (`SortableListPage`) -/

namespace Sortable

/-- Item of the sortable to-do list. -/
structure Item where
  id : String
  content : String
  completed : Bool
deriving DecidableEq, Repr

/-- Initial items data of the sortable-list page. -/
def initialItems : List Item :=
  [ ⟨"1", "Learn React basics", true⟩,
    ⟨"2", "Build a to-do app", false⟩,
    ⟨"3", "Learn about React hooks", false⟩,
    ⟨"4", "Explore dnd-kit library", true⟩,
    ⟨"5", "Create a sortable list", false⟩,
    ⟨"6", "Add keyboard accessibility", false⟩ ]

/-- The page's `handleDragEnd`: when there is a drop target and the active
and over ids differ, replace the items with
`arrayMove(items, oldIndex, newIndex)`; otherwise leave them unchanged. -/
def handleDragEnd (items : List Item) (e : DragEndEvt) : Option (List Item) :=
  match e.over with
  | none => some items
  | some overId =>
    if e.active ≠ overId then
      Js.arrayMove items
        (Js.findIndex (fun item => item.id == e.active) items)
        (Js.findIndex (fun item => item.id == overId) items)
    else some items

/-- The page's `resetList`. -/
def resetList (_ : List Item) : List Item := initialItems

end Sortable

/-! ## Custom-overlay page (`CustomOverlayPage`) -/

namespace Overlay

/-- File record of the custom-overlay page. -/
structure FileItem where
  id : String
  name : String
  type : String
  size : String
deriving DecidableEq, Repr

/-- Initial `fileItems` data of the custom-overlay page. -/
def fileItems : List FileItem :=
  [ ⟨"file-1", "Document.pdf", "pdf", "2.4 MB"⟩,
    ⟨"file-2", "Photo.jpg", "image", "3.8 MB"⟩,
    ⟨"file-3", "Presentation.pptx", "presentation", "5.2 MB"⟩,
    ⟨"file-4", "Spreadsheet.xlsx", "spreadsheet", "1.7 MB"⟩,
    ⟨"file-5", "Archive.zip", "archive", "8.1 MB"⟩ ]

/-- The page's `handleDragEnd`: same reorder as the sortable list, and the
`activeItem` overlay reference is set to `null` unconditionally at the end
of the handler.  The first component is the new items state, the second the
new `activeItem`. -/
def handleDragEnd (items : List FileItem) (_activeItem : Option FileItem)
    (e : DragEndEvt) : Option (List FileItem) × Option FileItem :=
  ( match e.over with
    | none => some items
    | some overId =>
      if e.active ≠ overId then
        Js.arrayMove items
          (Js.findIndex (fun item => item.id == e.active) items)
          (Js.findIndex (fun item => item.id == overId) items)
      else some items,
    none )

/-- The page's `resetItems`. -/
def resetItems (_ : List FileItem) : List FileItem := fileItems

end Overlay

/-! ## Association-list model of `Record<string, T>` objects -/

/-- Property read `obj[k]` on an object modelled as an association list in
key order: value of the first entry with the given key. -/
def objGet : List (String × α) → String → Option α
  | [], _ => none
  | p :: t, k => if p.1 == k then some p.2 else objGet t k

/-- Object update `{...prev, [k]: v}`: replaces the value of the (first)
entry with key `k`, keeping key order; appends the key when absent. -/
def objSet : List (String × α) → String → α → List (String × α)
  | [], k, v => [(k, v)]
  | p :: t, k, v => if p.1 == k then (k, v) :: t else p :: objSet t k v

/-- Concatenation of all the value lists of an object, in key order: the
combined contents of all containers. -/
def allItems (s : List (String × List α)) : List α :=
  (s.map (fun p => p.2)).flatten

/-! ## Kanban-board page (`KanbanBoardPage`) -/

namespace Kanban

/-- Task card of the Kanban board; `priority` is one of the strings
"High", "Medium", "Low". -/
structure Task where
  id : String
  content : String
  priority : String
deriving DecidableEq, Repr

/-- Board state: `Record<string, Task[]>` in key order. -/
abbrev Board := List (String × List Task)

/-- Initial kanban board data. -/
def initialTasks : Board :=
  [ ("to-do",
     [ ⟨"task-1", "Research competitors", "High"⟩,
       ⟨"task-2", "Update documentation", "Medium"⟩,
       ⟨"task-3", "Review project scope", "Low"⟩ ]),
    ("in-progress",
     [ ⟨"task-4", "Design landing page", "High"⟩,
       ⟨"task-5", "Implement drag and drop", "Medium"⟩ ]),
    ("completed",
     [ ⟨"task-6", "Team meeting", "High"⟩,
       ⟨"task-7", "Set up project repository", "Medium"⟩ ]) ]

/-- The page's `findColumnOfTask`: first column (in key order) containing
a task with the given id. -/
def findColumnOfTask (tasks : Board) (taskId : String) : Option String :=
  (tasks.find? (fun p => p.2.any (fun task => task.id == taskId))).map
    (fun p => p.1)

/-- Cross-column branch of the `setTasks` updater: remove the active task
from its column and add it to the destination (at the end when `overId` is
a column key, next to the over task otherwise).  `none` models the
untypeable state JavaScript would produce by indexing with `-1`. -/
def crossColumnMove (prevTasks : Board) (activeId overId : String)
    (activeColumn overColumn : String) : Option Board :=
  match objGet prevTasks activeColumn, objGet prevTasks overColumn with
  | some activeItems, some overItems =>
    (match activeItems.findIdx? (fun task => task.id == activeId) with
    | none => none
    | some activeIndex =>
      match activeItems.get? activeIndex with
      | none => none
      | some task =>
        match objGet prevTasks overId with
        | some overIdList =>
          some (objSet (objSet prevTasks activeColumn
            (activeItems.eraseIdx activeIndex)) overId
            (overIdList ++ [task]))
        | none =>
          some (objSet (objSet prevTasks activeColumn
            (activeItems.eraseIdx activeIndex)) overColumn
            (overItems.insertIdx
              ((overItems.findIdx? (fun task => task.id == overId)).getD
                overItems.length) task)))
  | _, _ => none

/-- Same-column branch of the `setTasks` updater:
`arrayMove(items, activeIndex, overIndex)` on the column's items. -/
def sameColumnMove (prevTasks : Board) (activeId overId : String)
    (column : String) : Option Board :=
  match objGet prevTasks column with
  | none => none
  | some items =>
    match Js.arrayMove items
        (Js.findIndex (fun task => task.id == activeId) items)
        (Js.findIndex (fun task => task.id == overId) items) with
    | none => none
    | some moved => some (objSet prevTasks column moved)

/-- Body of the `setTasks` functional updater in `handleDragEnd`, after the
guards have passed and `activeColumn` has been found. -/
def dragEndUpdate (prevTasks : Board) (activeId overId : String)
    (activeColumn : String) : Option Board :=
  match findColumnOfTask prevTasks overId with
  | some overColumn =>
    if activeColumn ≠ overColumn then
      crossColumnMove prevTasks activeId overId activeColumn overColumn
    else
      sameColumnMove prevTasks activeId overId activeColumn
  | none => some prevTasks

/-- The page's `handleDragEnd` acting on the pair of the `tasks` state and
the `activeTask` overlay reference.  On the early-return paths both parts
are left unchanged; when the update runs, `activeTask` is set to `null`. -/
def handleDragEnd (tasks : Board) (activeTask : Option Task)
    (e : DragEndEvt) : Option (Board × Option Task) :=
  match e.over with
  | none => some (tasks, activeTask)
  | some overId =>
    if e.active == overId then some (tasks, activeTask)
    else
      match findColumnOfTask tasks e.active with
      | none => some (tasks, activeTask)
      | some activeColumn =>
        match dragEndUpdate tasks e.active overId activeColumn with
        | none => none
        | some tasks' => some (tasks', none)

/-- The page's `resetBoard`. -/
def resetBoard (_ : Board) : Board := initialTasks

end Kanban

/-! ## Multiple-containers page (`MultipleContainersPage`) -/

namespace MC

/-- Container state of the multiple-containers page:
`Record<string, string[]>` in key order. -/
abbrev Containers := List (String × List String)

/-- Initial container state (the `useState` literal), key order
"Container A", "Container B", "Container C", "root". -/
def initialState : Containers :=
  [ ("Container A", ["item-1", "item-2"]),
    ("Container B", ["item-3"]),
    ("Container C", ["item-4", "item-5"]),
    ("root", []) ]

/-- The page's `findContainer`: the id itself when it is a key of the
state, else the first key whose item array includes it. -/
def findContainer (items : Containers) (itemId : String) : Option String :=
  if (objGet items itemId).isSome then some itemId
  else (items.find? (fun p => p.2.contains itemId)).map (fun p => p.1)

/-- The page's `handleDragEnd`.  The destination container is
`findContainer(overId) || overId`; the handler returns early when either
container is falsy or both are equal.  Otherwise the active id is spliced
out of the source array and pushed onto the destination array.  Reading a
missing key (`[...prev[overContainer]]` with `overContainer` not a key)
throws in JavaScript, modelled as `none`. -/
def handleDragEnd (items : Containers) (e : DragEndEvt) :
    Option Containers :=
  match e.over with
  | none => some items
  | some overId =>
    match findContainer items e.active with
    | none => some items
    | some activeContainer =>
      if activeContainer = "" ∨ (findContainer items overId).getD overId = "" ∨
          activeContainer = (findContainer items overId).getD overId then
        some items
      else
        match objGet items activeContainer,
            objGet items ((findContainer items overId).getD overId) with
        | some activeItems, some overItems =>
          some (objSet (objSet items activeContainer
            (Js.spliceRemove1 activeItems
              (Js.findIndex (fun x => x == e.active) activeItems)))
            ((findContainer items overId).getD overId)
            (overItems ++ [e.active]))
        | _, _ => none

end MC

/-! ## Free-positioning page (`FreePositioningPage`) -/

namespace Free

/-- Position record of a positionable item.  JavaScript numbers are
modelled as integers; the claims about this page concern which fields
change, not floating-point arithmetic. -/
structure Position where
  x : Int
  y : Int
deriving DecidableEq, Repr

/-- Draggable item with a position (`PositionableItem`). -/
structure PositionableItem where
  id : String
  label : String
  position : Position
deriving DecidableEq, Repr

/-- Initial items with positions. -/
def initialItems : List PositionableItem :=
  [ ⟨"item-1", "Item 1", ⟨50, 50⟩⟩,
    ⟨"item-2", "Item 2", ⟨200, 100⟩⟩,
    ⟨"item-3", "Item 3", ⟨350, 150⟩⟩ ]

/-- The fixed local-storage key used by the page. -/
def storageKey : String := "free-positioning-items"

/-- Error message logged when the stored value cannot be parsed. -/
def parseErrorMsg : String := "Failed to parse saved items:"

/-- The load `useEffect` run on mount: reads the storage key; when a value
is present and decodes, it replaces the item state; a decode failure is
logged and leaves the state alone; an absent value leaves the state alone.
The decoder stands for `JSON.parse`; the second component collects logged
error messages. -/
def loadItems (decode : String → Option (List PositionableItem))
    (storage : String → Option String)
    (current : List PositionableItem) :
    List PositionableItem × List String :=
  match storage storageKey with
  | none => (current, [])
  | some savedItems =>
    match decode savedItems with
    | some parsed => (parsed, [])
    | none => (current, [parseErrorMsg])

/-- The save `useEffect` run on every items change:
`localStorage.setItem("free-positioning-items", JSON.stringify(items))`.
The encoder stands for `JSON.stringify`; the result is the updated
storage map. -/
def saveItems (encode : List PositionableItem → String)
    (storage : String → Option String)
    (items : List PositionableItem) : String → Option String :=
  fun k => if k == storageKey then some (encode items) else storage k

/-- The page's `handleDragEnd`: maps over the items, adding the drag delta
to the position of every item whose id equals the active id. -/
def handleDragEnd (items : List PositionableItem)
    (activeId : String) (dx dy : Int) : List PositionableItem :=
  items.map (fun item =>
    if item.id == activeId then
      { item with position := ⟨item.position.x + dx, item.position.y + dy⟩ }
    else item)

/-- The page's `resetPositions`. -/
def resetPositions (_ : List PositionableItem) : List PositionableItem :=
  initialItems

end Free

/-! ## Specification predicates -/

/-- Keys of an object are pairwise distinct (true of every JavaScript
object literal and preserved by `{...prev, [k]: v}`). -/
@[reducible]
def NodupKeys (s : List (String × α)) : Prop :=
  (s.map (fun p => p.1)).Nodup

/-- Multiple-containers invariant of the spec: every item identifier
appears in at most one container (it occurs at most once across the
combined contents of all containers). -/
def MInv (s : MC.Containers) : Prop :=
  ∀ id : String, (allItems s).countP (fun x => x == id) ≤ 1

/-- No identifier stored in a container of the multiple-containers state
is itself a container key. -/
@[reducible]
def MDisj (s : MC.Containers) : Prop :=
  ∀ a ∈ allItems s, objGet s a = none

/-- Kanban invariant of the spec: every task identifier appears in at most
one column (it occurs at most once across the combined contents of all
columns). -/
def KInv (s : Kanban.Board) : Prop :=
  ∀ id : String, (allItems s).countP (fun t => t.id == id) ≤ 1

/-- No task identifier stored in a column of the Kanban board is itself a
column key. -/
@[reducible]
def KDisj (s : Kanban.Board) : Prop :=
  ∀ t ∈ allItems s, objGet s t.id = none

/-! ## Generic list lemmas -/

theorem perm_cons_eraseIdx :
    ∀ (l : List α) (n : Nat) (a : α), l.get? n = some a →
      l.Perm (a :: l.eraseIdx n)
  | [], n, a, h => by simp at h
  | x :: t, 0, a, h => by
    simp only [List.get?] at h
    cases h
    simp [List.eraseIdx]
  | x :: t, n + 1, a, h => by
    simp only [List.get?] at h
    have ih := perm_cons_eraseIdx t n a h
    show (x :: t).Perm (a :: x :: t.eraseIdx n)
    exact (ih.cons x).trans (List.Perm.swap a x (t.eraseIdx n))

theorem perm_insertIdx :
    ∀ (l : List α) (n : Nat) (a : α), n ≤ l.length →
      (l.insertIdx n a).Perm (a :: l)
  | _, 0, _, _ => by simp
  | [], n + 1, a, h => by simp at h
  | x :: t, n + 1, a, h => by
    simp only [List.insertIdx_succ_cons]
    have ih := perm_insertIdx t n a (Nat.le_of_succ_le_succ h)
    exact (ih.cons x).trans (List.Perm.swap a x t)

theorem countP_eraseIdx_get? (l : List α) (n : Nat) (a : α) (p : α → Bool)
    (h : l.get? n = some a) :
    (l.eraseIdx n).countP p + (if p a then 1 else 0) = l.countP p := by
  have hp := (perm_cons_eraseIdx l n a h).countP_eq p
  rw [hp, List.countP_cons]

theorem countP_insertIdx (l : List α) (n : Nat) (a : α) (p : α → Bool)
    (h : n ≤ l.length) :
    (l.insertIdx n a).countP p = l.countP p + (if p a then 1 else 0) := by
  have hp := (perm_insertIdx l n a h).countP_eq p
  rw [hp, List.countP_cons]

theorem countP_eraseIdx_le (l : List α) (n : Nat) (p : α → Bool) :
    (l.eraseIdx n).countP p ≤ l.countP p :=
  (l.eraseIdx_sublist n).countP_le p

/-! ## Lemmas about the object model -/

theorem objGet_objSet_ne (s : List (String × α)) (k k' : String) (v : α)
    (h : k' ≠ k) : objGet (objSet s k v) k' = objGet s k' := by
  induction s with
  | nil => simp [objSet, objGet, beq_iff_eq, h.symm]
  | cons q t ih =>
    simp only [objSet, beq_iff_eq]
    by_cases hq : q.1 = k
    · subst hq
      simp [objGet, beq_iff_eq, h.symm, fun e : q.1 = k' => h (e ▸ rfl)]
    · simp only [if_neg hq, objGet, beq_iff_eq]
      by_cases hq' : q.1 = k'
      · simp [hq']
      · simp [hq', ih]

theorem countP_allItems_objSet (s : List (String × List α)) (k : String)
    (v w : List α) (p : α → Bool) (h : objGet s k = some v) :
    (allItems (objSet s k w)).countP p + v.countP p
      = (allItems s).countP p + w.countP p := by
  induction s with
  | nil => simp [objGet] at h
  | cons q t ih =>
    simp only [objGet] at h
    by_cases hq : q.1 = k
    · rw [if_pos (by simpa using hq)] at h
      cases h
      simp only [objSet]
      rw [if_pos (by simpa using hq)]
      simp only [allItems, List.map_cons, List.flatten_cons, List.countP_append]
      omega
    · rw [if_neg (by simpa using hq)] at h
      simp only [objSet]
      rw [if_neg (by simpa using hq)]
      simp only [allItems, List.map_cons, List.flatten_cons, List.countP_append]
      have := ih h
      simp only [allItems] at this
      omega

theorem countP_objGet_le (s : List (String × List α)) (k : String)
    (v : List α) (p : α → Bool) (h : objGet s k = some v) :
    v.countP p ≤ (allItems s).countP p := by
  induction s with
  | nil => simp [objGet] at h
  | cons q t ih =>
    simp only [objGet] at h
    simp only [allItems, List.map_cons, List.flatten_cons, List.countP_append]
    by_cases hq : q.1 = k
    · rw [if_pos (by simpa using hq)] at h
      cases h
      omega
    · rw [if_neg (by simpa using hq)] at h
      have := ih h
      simp only [allItems] at this
      omega

theorem mem_allItems (s : List (String × List α)) (x : α) :
    x ∈ allItems s ↔ ∃ q ∈ s, x ∈ q.2 := by
  simp only [allItems, List.mem_flatten, List.mem_map]
  constructor
  · rintro ⟨l, ⟨q, hq, rfl⟩, hx⟩
    exact ⟨q, hq, hx⟩
  · rintro ⟨q, hq, hx⟩
    exact ⟨q.2, ⟨q, hq, rfl⟩, hx⟩

theorem objGet_isSome_of_mem (s : List (String × α)) (q : String × α)
    (h : q ∈ s) : (objGet s q.1).isSome := by
  induction s with
  | nil => simp at h
  | cons r t ih =>
    simp only [objGet]
    rcases List.mem_cons.mp h with rfl | h
    · simp
    · by_cases hr : r.1 = q.1
      · rw [if_pos (by simpa using hr)]; simp
      · rw [if_neg (by simpa using hr)]; exact ih h

theorem get?_insertIdx_self' :
    ∀ (l : List α) (n : Nat) (a : α), n ≤ l.length →
      (l.insertIdx n a).get? n = some a
  | _, 0, _, _ => rfl
  | [], n + 1, a, h => by simp at h
  | x :: t, n + 1, a, h => by
    simp only [List.insertIdx_succ_cons, List.get?]
    exact get?_insertIdx_self' t n a (Nat.le_of_succ_le_succ h)

theorem get?_insertIdx_lt :
    ∀ (l : List α) (n : Nat) (a : α) (k : Nat), k < n →
      (l.insertIdx n a).get? k = l.get? k
  | _, 0, _, k, h => by omega
  | [], n + 1, a, k, _ => by simp
  | x :: t, n + 1, a, 0, _ => by simp [List.insertIdx_succ_cons]
  | x :: t, n + 1, a, k + 1, h => by
    simp only [List.insertIdx_succ_cons, List.get?]
    exact get?_insertIdx_lt t n a k (Nat.lt_of_succ_lt_succ h)

theorem get?_insertIdx_succ :
    ∀ (l : List α) (n : Nat) (a : α) (k : Nat), n ≤ l.length → n ≤ k →
      (l.insertIdx n a).get? (k + 1) = l.get? k
  | l, 0, a, k, _, _ => by simp [List.get?]
  | [], n + 1, a, k, h, _ => by simp at h
  | x :: t, n + 1, a, k + 1, h, hk => by
    simp only [List.insertIdx_succ_cons, List.get?]
    exact get?_insertIdx_succ t n a k (Nat.le_of_succ_le_succ h)
      (Nat.le_of_succ_le_succ hk)

theorem get?_eraseIdx_lt :
    ∀ (l : List α) (n : Nat) (k : Nat), k < n →
      (l.eraseIdx n).get? k = l.get? k
  | [], _, _, _ => by simp
  | x :: t, 0, k, h => by omega
  | x :: t, n + 1, 0, _ => by simp [List.eraseIdx]
  | x :: t, n + 1, k + 1, h => by
    simp only [List.eraseIdx, List.get?]
    exact get?_eraseIdx_lt t n k (Nat.lt_of_succ_lt_succ h)

theorem get?_eraseIdx_ge :
    ∀ (l : List α) (n : Nat) (k : Nat), n ≤ k →
      (l.eraseIdx n).get? k = l.get? (k + 1)
  | [], _, _, _ => by simp
  | x :: t, 0, k, _ => by simp [List.eraseIdx, List.get?]
  | x :: t, n + 1, k + 1, h => by
    simp only [List.eraseIdx, List.get?]
    exact get?_eraseIdx_ge t n k (Nat.le_of_succ_le_succ h)

/-! ## Lemmas about the JavaScript primitives -/

theorem spliceStart_le (n : Nat) (i : Int) : Js.spliceStart n i ≤ n := by
  simp only [Js.spliceStart]
  split <;> omega

theorem spliceStart_coe (n m : Nat) (h : m ≤ n) :
    Js.spliceStart n (m : Int) = m := by
  simp only [Js.spliceStart]
  split <;> omega

theorem findIndex_of_findIdx? (p : α → Bool) (l : List α) (n : Nat)
    (h : l.findIdx? p = some n) : Js.findIndex p l = (n : Int) := by
  simp [Js.findIndex, h]

theorem findIndex_of_none (p : α → Bool) (l : List α)
    (h : l.findIdx? p = none) : Js.findIndex p l = -1 := by
  simp [Js.findIndex, h]

theorem arrayMove_perm (l l' : List α) (i j : Int)
    (h : Js.arrayMove l i j = some l') : l'.Perm l := by
  simp only [Js.arrayMove] at h
  cases hx : Js.spliceRemoved? l i with
  | none => rw [hx] at h; simp at h
  | some x =>
    rw [hx] at h
    simp only [Option.some.injEq] at h
    subst h
    simp only [Js.spliceRemoved?] at hx
    have hperm := perm_cons_eraseIdx l (Js.spliceStart l.length i) x hx
    simp only [Js.spliceInsert1, Js.spliceRemove1]
    have hins := perm_insertIdx (l.eraseIdx (Js.spliceStart l.length i))
      (Js.spliceStart (l.eraseIdx (Js.spliceStart l.length i)).length
        (if j < 0 then (l.length : Int) + j else j)) x
      (spliceStart_le _ _)
    exact hins.trans hperm.symm

theorem countP_spliceRemove1_le (l : List α) (i : Int) (p : α → Bool) :
    (Js.spliceRemove1 l i).countP p ≤ l.countP p :=
  countP_eraseIdx_le l _ p

/-! ## Lemmas about container lookup -/

theorem findColumnOfTask_mem (s : Kanban.Board) (x c : String)
    (h : Kanban.findColumnOfTask s x = some c) :
    ∃ t ∈ allItems s, t.id = x := by
  simp only [Kanban.findColumnOfTask, Option.map_eq_some'] at h
  obtain ⟨q, hq, -⟩ := h
  have hmem := List.mem_of_find?_eq_some hq
  have hpred := List.find?_some hq
  simp only [List.any_eq_true, beq_iff_eq] at hpred
  obtain ⟨t, ht, hid⟩ := hpred
  exact ⟨t, (mem_allItems s t).mpr ⟨q, hmem, ht⟩, hid⟩

theorem findContainer_isSome_objGet (s : MC.Containers) (x c : String)
    (h : MC.findContainer s x = some c) : (objGet s c).isSome := by
  simp only [MC.findContainer] at h
  split at h
  · cases h
    assumption
  · simp only [Option.map_eq_some'] at h
    obtain ⟨q, hq, rfl⟩ := h
    exact objGet_isSome_of_mem s q (List.mem_of_find?_eq_some hq)

theorem objGet_of_mem_nodup (s : List (String × α)) (q : String × α)
    (hk : NodupKeys s) (h : q ∈ s) : objGet s q.1 = some q.2 := by
  induction s with
  | nil => simp at h
  | cons r t ih =>
    simp only [NodupKeys, List.map_cons, List.nodup_cons] at hk
    simp only [objGet]
    rcases List.mem_cons.mp h with rfl | h
    · simp
    · by_cases hr : r.1 = q.1
      · exact absurd (hr ▸ List.mem_map_of_mem (fun p => p.1) h) hk.1
      · rw [if_neg (by simpa using hr)]
        exact ih hk.2 h

theorem findIdx?_le_length (p : α → Bool) (l : List α) (n : Nat)
    (h : l.findIdx? p = some n) : n ≤ l.length := by
  rw [List.findIdx?_eq_some_iff_getElem] at h
  obtain ⟨hlt, -⟩ := h
  omega

/-! ## Bridge lemmas for the invariants -/

theorem MInv_of_forall_mem (s : MC.Containers)
    (h : ∀ a ∈ allItems s, (allItems s).countP (fun x => x == a) ≤ 1) :
    MInv s := by
  intro id
  by_cases hmem : id ∈ allItems s
  · exact h id hmem
  · have hz : (allItems s).countP (fun x => x == id) = 0 := by
      rw [List.countP_eq_zero]
      intro a ha hbe
      exact hmem ((beq_iff_eq.mp hbe) ▸ ha)
    omega

theorem KInv_of_forall_mem (s : Kanban.Board)
    (h : ∀ t ∈ allItems s, (allItems s).countP (fun u => u.id == t.id) ≤ 1) :
    KInv s := by
  intro id
  by_cases hmem : ∃ t ∈ allItems s, t.id = id
  · obtain ⟨t, ht, rfl⟩ := hmem
    exact h t ht
  · have hz : (allItems s).countP (fun u => u.id == id) = 0 := by
      rw [List.countP_eq_zero]
      intro t ht hbe
      exact hmem ⟨t, ht, beq_iff_eq.mp hbe⟩
    omega

theorem findContainer_none_objGet (s : MC.Containers) (x : String)
    (h : MC.findContainer s x = none) : objGet s x = none := by
  simp only [MC.findContainer] at h
  split at h
  · cases h
  · rename_i hs
    cases hg : objGet s x with
    | none => rfl
    | some v => rw [hg] at hs; simp at hs

theorem spliceRemove1_findIndex_eq_erase (l : List String) (a : String)
    (hmem : a ∈ l) :
    Js.spliceRemove1 l (Js.findIndex (fun x => x == a) l) = l.erase a := by
  induction l with
  | nil => simp at hmem
  | cons x t ih =>
    by_cases hx : x == a
    · have hfi : (x :: t).findIdx? (fun y => y == a) = some 0 := by
        simp [List.findIdx?_cons, hx]
      rw [findIndex_of_findIdx? _ _ _ hfi]
      simp only [Js.spliceRemove1]
      rw [spliceStart_coe _ _ (Nat.zero_le _)]
      simp [List.eraseIdx, List.erase_cons, hx]
    · have hmem' : a ∈ t := by
        rcases List.mem_cons.mp hmem with rfl | h
        · simp at hx
        · exact h
      obtain ⟨m, hfm⟩ : ∃ m, t.findIdx? (fun y => y == a) = some m :=
        ⟨_, List.findIdx?_eq_some_of_exists ⟨a, hmem', by simp⟩⟩
      have hmlt : m < t.length :=
        (List.findIdx?_eq_some_iff_getElem.mp hfm).1
      have hfi : (x :: t).findIdx? (fun y => y == a) = some (m + 1) := by
        rw [List.findIdx?_cons, if_neg (by simpa using hx)]
        rw [List.findIdx?_start_succ, hfm]
        rfl
      rw [findIndex_of_findIdx? _ _ _ hfi]
      have hle : m + 1 ≤ (x :: t).length := by
        simp only [List.length_cons]
        omega
      simp only [Js.spliceRemove1, spliceStart_coe _ _ hle]
      have ht := ih hmem'
      rw [findIndex_of_findIdx? _ _ _ hfm] at ht
      simp only [Js.spliceRemove1,
        spliceStart_coe _ _ (Nat.le_of_lt hmlt)] at ht
      simp only [List.eraseIdx, List.erase_cons]
      rw [if_neg (by simpa using hx), ht]

/-! ## Preservation lemmas for the multiple-containers page -/

theorem mc_move_MInv (s : MC.Containers) (activeId ac oc : String)
    (activeItems overItems : List String)
    (hk : NodupKeys s) (hd : MDisj s) (hi : MInv s)
    (hac : MC.findContainer s activeId = some ac)
    (hne : ac ≠ oc)
    (ha : objGet s ac = some activeItems)
    (hov : objGet s oc = some overItems) :
    MInv (objSet (objSet s ac
      (Js.spliceRemove1 activeItems
        (Js.findIndex (fun x => x == activeId) activeItems)))
      oc (overItems ++ [activeId])) := by
  intro id
  have hov' : objGet (objSet s ac
      (Js.spliceRemove1 activeItems
        (Js.findIndex (fun x => x == activeId) activeItems))) oc
      = some overItems := by
    rw [objGet_objSet_ne _ _ _ _ (Ne.symm hne), hov]
  have hA1 := countP_allItems_objSet s ac activeItems
    (Js.spliceRemove1 activeItems
      (Js.findIndex (fun x => x == activeId) activeItems))
    (fun x => x == id) ha
  have hA2 := countP_allItems_objSet _ oc overItems
    (overItems ++ [activeId]) (fun x => x == id) hov'
  rw [List.countP_append] at hA2
  have hsub := countP_spliceRemove1_le activeItems
    (Js.findIndex (fun x => x == activeId) activeItems) (fun x => x == id)
  have hone := hi id
  by_cases hid : activeId = id
  · subst hid
    have hsingle : List.countP (fun x => x == activeId) [activeId] = 1 := by
      simp
    by_cases hkey : (objGet s activeId).isSome
    · -- the active id is itself a key: it occurs in no container
      have hmem : activeId ∉ allItems s := fun hmem => by
        rw [hd activeId hmem] at hkey
        simp at hkey
      have hzero : (allItems s).countP (fun x => x == activeId) = 0 := by
        rw [List.countP_eq_zero]
        intro a haa hbe
        exact hmem ((beq_iff_eq.mp hbe) ▸ haa)
      have hcol : activeItems.countP (fun x => x == activeId) = 0 := by
        have := countP_objGet_le s ac activeItems (fun x => x == activeId) ha
        omega
      omega
    · -- the active id was found in its container: it occurs exactly once
      have hkey' : objGet s activeId = none := by
        cases hg : objGet s activeId with
        | none => rfl
        | some v => rw [hg] at hkey; simp at hkey
      have hmemac : activeId ∈ activeItems := by
        simp only [MC.findContainer, hkey', Option.isSome_none,
          Bool.false_eq_true, if_false, Option.map_eq_some'] at hac
        obtain ⟨q, hq, rfl⟩ := hac
        have hqmem := List.mem_of_find?_eq_some hq
        have hqpred := List.find?_some hq
        have hget := objGet_of_mem_nodup s q hk hqmem
        rw [hget] at ha
        cases ha
        simpa using hqpred
      have hfi : activeItems.findIdx?
          (fun x => x == activeId)
          = some (activeItems.findIdx (fun x => x == activeId)) :=
        List.findIdx?_eq_some_of_exists ⟨activeId, hmemac, by simp⟩
      have hflt : activeItems.findIdx (fun x => x == activeId)
          < activeItems.length := by
        have := List.findIdx?_eq_some_iff_getElem.mp hfi
        exact this.1
      have hgot : activeItems.get?
          (activeItems.findIdx (fun x => x == activeId)) = some activeId := by
        obtain ⟨hlt, hpred, -⟩ := List.findIdx?_eq_some_iff_getElem.mp hfi
        rw [List.get?_eq_getElem?, List.getElem?_eq_getElem hlt]
        simpa using hpred
      have hsplice : Js.spliceRemove1 activeItems
          (Js.findIndex (fun x => x == activeId) activeItems)
          = activeItems.eraseIdx
              (activeItems.findIdx (fun x => x == activeId)) := by
        rw [findIndex_of_findIdx? _ _ _ hfi]
        simp only [Js.spliceRemove1]
        rw [spliceStart_coe _ _ (Nat.le_of_lt hflt)]
      have hremoved := countP_eraseIdx_get? activeItems
        (activeItems.findIdx (fun x => x == activeId)) activeId
        (fun x => x == activeId) hgot
      rw [if_pos (by simp)] at hremoved
      have hpos : 0 < activeItems.countP (fun x => x == activeId) :=
        List.countP_pos_iff.mpr ⟨activeId, hmemac, by simp⟩
      have hcolle := countP_objGet_le s ac activeItems
        (fun x => x == activeId) ha
      rw [hsplice] at hA1 hA2 hsub ⊢
      omega
  · -- any other id is unaffected by the appended active id
    have hzero : List.countP (fun x => x == id) [activeId] = 0 := by
      simp [hid]
    omega

theorem mc_handleDragEnd_MInv (s : MC.Containers) (e : DragEndEvt)
    (s' : MC.Containers) (hk : NodupKeys s) (hd : MDisj s) (hi : MInv s)
    (h : MC.handleDragEnd s e = some s') : MInv s' := by
  obtain ⟨activeId, over⟩ := e
  simp only [MC.handleDragEnd] at h
  split at h
  · cases h; exact hi
  · rename_i overId
    split at h
    case h_1 => cases h; exact hi
    case h_2 ac hac =>
      split at h
      · cases h; exact hi
      · rename_i hguard
        push_neg at hguard
        split at h
        case h_2 => cases h
        case h_1 activeItems overItems ha hov =>
          simp only [Option.some.injEq] at h
          subst h
          exact mc_move_MInv s activeId ac _ activeItems overItems hk hd hi
            hac hguard.2.2 ha hov

/-! ## Preservation lemmas for the Kanban board -/

theorem kanban_dragEndUpdate_countP (s : Kanban.Board)
    (activeId overId activeColumn : String) (ts' : Kanban.Board)
    (p : Kanban.Task → Bool) (hd : KDisj s)
    (h : Kanban.dragEndUpdate s activeId overId activeColumn = some ts') :
    (allItems ts').countP p = (allItems s).countP p := by
  simp only [Kanban.dragEndUpdate] at h
  split at h
  case h_2 => cases h; rfl
  case h_1 overColumn hoc =>
    have hoid : objGet s overId = none := by
      obtain ⟨t, ht, hid⟩ := findColumnOfTask_mem s overId overColumn hoc
      exact hid ▸ hd t ht
    split at h
    · -- cross-column move
      rename_i hne
      simp only [Kanban.crossColumnMove] at h
      split at h
      case h_2 => cases h
      case h_1 activeItems overItems ha hov =>
        split at h
        case h_1 => cases h
        case h_2 activeIndex hfi =>
          split at h
          case h_1 => cases h
          case h_2 task hget =>
            rw [hoid] at h
            simp only [Option.some.injEq] at h
            subst h
            have step2 : objGet (objSet s activeColumn
                (activeItems.eraseIdx activeIndex)) overColumn
                = some overItems := by
              rw [objGet_objSet_ne _ _ _ _ (Ne.symm hne), hov]
            have step1 := countP_allItems_objSet s activeColumn activeItems
              (activeItems.eraseIdx activeIndex) p ha
            have step3 := countP_allItems_objSet _ overColumn overItems
              (overItems.insertIdx
                ((overItems.findIdx? (fun task => task.id == overId)).getD
                  overItems.length) task) p step2
            have step4 := countP_eraseIdx_get? activeItems activeIndex task
              p hget
            have hle : ((overItems.findIdx?
                (fun task => task.id == overId)).getD overItems.length)
                ≤ overItems.length := by
              cases hfj : overItems.findIdx? (fun task => task.id == overId)
                with
              | none => simp
              | some m => simpa using findIdx?_le_length _ overItems m hfj
            have step5 := countP_insertIdx overItems _ task p hle
            rw [step5] at step3
            omega
    · -- same-column reorder
      simp only [Kanban.sameColumnMove] at h
      split at h
      case h_1 => cases h
      case h_2 items ha =>
        split at h
        case h_1 => cases h
        case h_2 moved hmv =>
          simp only [Option.some.injEq] at h
          subst h
          have hperm := arrayMove_perm items moved _ _ hmv
          have step1 := countP_allItems_objSet s activeColumn items moved p ha
          have hcnt := hperm.countP_eq p
          omega

theorem kanban_handleDragEnd_countP (s : Kanban.Board) (act : Option Kanban.Task)
    (e : DragEndEvt) (ts' : Kanban.Board) (act' : Option Kanban.Task)
    (p : Kanban.Task → Bool) (hd : KDisj s)
    (h : Kanban.handleDragEnd s act e = some (ts', act')) :
    (allItems ts').countP p = (allItems s).countP p := by
  obtain ⟨activeId, over⟩ := e
  simp only [Kanban.handleDragEnd] at h
  split at h
  · simp only [Option.some.injEq, Prod.mk.injEq] at h
    rw [← h.1]
  · rename_i overId
    split at h
    · simp only [Option.some.injEq, Prod.mk.injEq] at h
      rw [← h.1]
    · split at h
      · simp only [Option.some.injEq, Prod.mk.injEq] at h
        rw [← h.1]
      · rename_i activeColumn hfc
        split at h
        case h_1 => cases h
        case h_2 ts'' hupd =>
          simp only [Option.some.injEq, Prod.mk.injEq] at h
          rw [← h.1]
          exact kanban_dragEndUpdate_countP s activeId overId activeColumn
            ts'' p hd hupd

/-! ## Claim theorems -/

/-- C3: on the free-positioning page, if the string stored under the
page's key cannot be decoded, the failure is logged (the parse error
message is emitted) and the item state remains the hardcoded initial
list. -/
theorem claim_C3 (decode : String → Option (List Free.PositionableItem))
    (storage : String → Option String) (str : String)
    (hs : storage Free.storageKey = some str) (hd : decode str = none) :
    Free.loadItems decode storage Free.initialItems
      = (Free.initialItems, [Free.parseErrorMsg]) := by
  simp only [Free.loadItems, hs, hd]

/-- Witness for C3 at a concrete undecodable stored string. -/
theorem claim_C3_witness :
    Free.loadItems (fun _ => none) (fun _ => some "not json")
      Free.initialItems = (Free.initialItems, [Free.parseErrorMsg]) :=
  claim_C3 (fun _ => none) (fun _ => some "not json") "not json" rfl rfl

/-- C4: the free-positioning page persists its items under the single
fixed key "free-positioning-items": saving writes the encoding of the
current items to exactly that key and no other; loading reads that key
and replaces the state exactly when a value is present and decodes, and
leaves the state alone when the key is absent. -/
theorem claim_C4 :
    (∀ (encode : List Free.PositionableItem → String)
        (storage : String → Option String)
        (items : List Free.PositionableItem),
        Free.saveItems encode storage items Free.storageKey
          = some (encode items)) ∧
    (∀ (encode : List Free.PositionableItem → String)
        (storage : String → Option String)
        (items : List Free.PositionableItem) (k : String),
        k ≠ Free.storageKey →
        Free.saveItems encode storage items k = storage k) ∧
    (∀ (decode : String → Option (List Free.PositionableItem))
        (storage : String → Option String)
        (current : List Free.PositionableItem) (str : String)
        (v : List Free.PositionableItem),
        storage Free.storageKey = some str → decode str = some v →
        Free.loadItems decode storage current = (v, [])) ∧
    (∀ (decode : String → Option (List Free.PositionableItem))
        (storage : String → Option String)
        (current : List Free.PositionableItem),
        storage Free.storageKey = none →
        Free.loadItems decode storage current = (current, [])) := by
  refine ⟨fun encode storage items => ?_,
    fun encode storage items k hk => ?_,
    fun decode storage current str v hs hv => ?_,
    fun decode storage current hs => ?_⟩
  · simp [Free.saveItems]
  · simp [Free.saveItems, beq_iff_eq, hk]
  · simp only [Free.loadItems, hs, hv]
  · simp only [Free.loadItems, hs]

/-- Witness for C4 at concrete storage maps and codecs. -/
theorem claim_C4_witness :
    Free.saveItems (fun _ => "enc") (fun _ => none) Free.initialItems
      Free.storageKey = some "enc" ∧
    Free.saveItems (fun _ => "enc") (fun _ => none) Free.initialItems
      "other-key" = none ∧
    Free.loadItems (fun _ => some Free.initialItems)
      (fun _ => some "payload") [] = (Free.initialItems, []) ∧
    Free.loadItems (fun _ => some Free.initialItems) (fun _ => none)
      Free.initialItems = (Free.initialItems, []) :=
  ⟨claim_C4.1 (fun _ => "enc") (fun _ => none) Free.initialItems,
   claim_C4.2.1 (fun _ => "enc") (fun _ => none) Free.initialItems
     "other-key" (by decide),
   claim_C4.2.2.1 (fun _ => some Free.initialItems) (fun _ => some "payload")
     [] "payload" Free.initialItems rfl rfl,
   claim_C4.2.2.2 (fun _ => some Free.initialItems) (fun _ => none)
     Free.initialItems rfl⟩

/-- C6: each page's reset action maps every state to the hardcoded
initial list or board, and reset is idempotent. -/
theorem claim_C6 (b : Kanban.Board) (l : List Sortable.Item)
    (ps : List Free.PositionableItem) (fs : List Overlay.FileItem) :
    Kanban.resetBoard b = Kanban.initialTasks ∧
    Kanban.resetBoard (Kanban.resetBoard b) = Kanban.resetBoard b ∧
    Sortable.resetList l = Sortable.initialItems ∧
    Sortable.resetList (Sortable.resetList l) = Sortable.resetList l ∧
    Free.resetPositions ps = Free.initialItems ∧
    Free.resetPositions (Free.resetPositions ps) = Free.resetPositions ps ∧
    Overlay.resetItems fs = Overlay.fileItems ∧
    Overlay.resetItems (Overlay.resetItems fs) = Overlay.resetItems fs :=
  ⟨rfl, rfl, rfl, rfl, rfl, rfl, rfl, rfl⟩

/-- C9: on the free-positioning page, `handleDragEnd` keeps the length
and order of the items and maps each entry to itself unless its id equals
the active id, in which case only the position changes, by adding the
drag delta; the id and label are kept. -/
theorem claim_C9 (items : List Free.PositionableItem) (activeId : String)
    (dx dy : Int) :
    (Free.handleDragEnd items activeId dx dy).length = items.length ∧
    ∀ n : Nat, (Free.handleDragEnd items activeId dx dy).get? n
      = (items.get? n).map (fun item =>
          if item.id == activeId then
            ⟨item.id, item.label,
              ⟨item.position.x + dx, item.position.y + dy⟩⟩
          else item) := by
  refine ⟨List.length_map _ _, fun n => ?_⟩
  simp only [Free.handleDragEnd, List.get?_eq_getElem?, List.getElem?_map]

/-- C10: with no drop target, or when the active id equals the over id,
`handleDragEnd` leaves the sortable list and the Kanban board (tasks and
active task alike) unchanged. -/
theorem claim_C10 :
    (∀ (items : List Sortable.Item) (activeId : String),
        Sortable.handleDragEnd items ⟨activeId, none⟩ = some items) ∧
    (∀ (items : List Sortable.Item) (activeId : String),
        Sortable.handleDragEnd items ⟨activeId, some activeId⟩
          = some items) ∧
    (∀ (s : Kanban.Board) (act : Option Kanban.Task) (activeId : String),
        Kanban.handleDragEnd s act ⟨activeId, none⟩ = some (s, act)) ∧
    (∀ (s : Kanban.Board) (act : Option Kanban.Task) (activeId : String),
        Kanban.handleDragEnd s act ⟨activeId, some activeId⟩
          = some (s, act)) := by
  refine ⟨fun items activeId => rfl, fun items activeId => ?_,
    fun s act activeId => rfl, fun s act activeId => ?_⟩
  · simp [Sortable.handleDragEnd]
  · simp [Kanban.handleDragEnd]

/-- C1 (amended): for every drag-end event of the Kanban board and of the
multiple-containers page, if every item identifier occurs at most once
across all containers, keys are distinct, and no identifier stored in a
container equals a container/column key, then after a completed state
update every item identifier still occurs at most once across all
containers. -/
theorem claim_C1_amended :
    (∀ (s : MC.Containers) (e : DragEndEvt) (s' : MC.Containers),
        NodupKeys s → MDisj s → MInv s →
        MC.handleDragEnd s e = some s' → MInv s') ∧
    (∀ (s : Kanban.Board) (act : Option Kanban.Task) (e : DragEndEvt)
        (ts' : Kanban.Board) (act' : Option Kanban.Task),
        KDisj s → KInv s →
        Kanban.handleDragEnd s act e = some (ts', act') → KInv ts') := by
  constructor
  · exact fun s e s' hk hd hi h => mc_handleDragEnd_MInv s e s' hk hd hi h
  · intro s act e ts' act' hd hi h id
    rw [kanban_handleDragEnd_countP s act e ts' act'
      (fun t => t.id == id) hd h]
    exact hi id

/-- C1 counterexample: the claim as stated (with only the
at-most-one-container precondition) fails on the multiple-containers
page.  In a state satisfying the invariant where the identifier "root"
(which is also a container key of the page's state) sits in Container A,
dragging "root" over Container B leaves it in Container A and also
appends it to Container B: it then appears in two containers. -/
theorem claim_C1_counterexample :
    MInv [("Container A", ["root"]), ("Container B", []),
      ("Container C", []), ("root", [])] ∧
    MC.handleDragEnd
      [("Container A", ["root"]), ("Container B", []),
        ("Container C", []), ("root", [])]
      ⟨"root", some "Container B"⟩
      = some [("Container A", ["root"]), ("Container B", ["root"]),
          ("Container C", []), ("root", [])] ∧
    (allItems [("Container A", ["root"]), ("Container B", ["root"]),
        ("Container C", []), ("root", [])]).countP
      (fun x => x == "root") = 2 :=
  ⟨MInv_of_forall_mem _ (by decide), by decide, by decide⟩

/-- Witness for C1 (amended) at a concrete drag on each page. -/
theorem claim_C1_witness :
    MInv [("Container A", ["item-2"]), ("Container B", ["item-3", "item-1"]),
      ("Container C", ["item-4", "item-5"]), ("root", [])] ∧
    KInv [("to-do",
        [⟨"task-2", "Update documentation", "Medium"⟩,
         ⟨"task-3", "Review project scope", "Low"⟩]),
      ("in-progress",
        [⟨"task-1", "Research competitors", "High"⟩,
         ⟨"task-4", "Design landing page", "High"⟩,
         ⟨"task-5", "Implement drag and drop", "Medium"⟩]),
      ("completed",
        [⟨"task-6", "Team meeting", "High"⟩,
         ⟨"task-7", "Set up project repository", "Medium"⟩])] :=
  ⟨claim_C1_amended.1 MC.initialState ⟨"item-1", some "Container B"⟩ _
      (by decide) (by decide) (MInv_of_forall_mem _ (by decide)) (by decide),
   claim_C1_amended.2 Kanban.initialTasks none ⟨"task-1", some "task-4"⟩ _
      none (by decide) (KInv_of_forall_mem _ (by decide)) (by decide)⟩

/-- C2 (amended): on the custom-overlay page `activeItem` is null after
every `handleDragEnd`; on the Kanban page `activeTask` is set to null
exactly on the runs that reach the state update, while the three
early-return paths (no drop target, active id equals over id, active
column not found) leave both the tasks and `activeTask` unchanged. -/
theorem claim_C2_amended :
    (∀ (items : List Overlay.FileItem) (act : Option Overlay.FileItem)
        (e : DragEndEvt), (Overlay.handleDragEnd items act e).2 = none) ∧
    (∀ (s : Kanban.Board) (act : Option Kanban.Task) (activeId : String),
        Kanban.handleDragEnd s act ⟨activeId, none⟩ = some (s, act)) ∧
    (∀ (s : Kanban.Board) (act : Option Kanban.Task) (activeId : String),
        Kanban.handleDragEnd s act ⟨activeId, some activeId⟩
          = some (s, act)) ∧
    (∀ (s : Kanban.Board) (act : Option Kanban.Task)
        (activeId overId : String),
        Kanban.findColumnOfTask s activeId = none →
        Kanban.handleDragEnd s act ⟨activeId, some overId⟩
          = some (s, act)) ∧
    (∀ (s : Kanban.Board) (act : Option Kanban.Task) (e : DragEndEvt)
        (ts' : Kanban.Board) (act' : Option Kanban.Task),
        Kanban.handleDragEnd s act e = some (ts', act') →
        act' = none ∨ (ts' = s ∧ act' = act)) := by
  refine ⟨fun items act e => rfl, fun s act activeId => rfl,
    fun s act activeId => by simp [Kanban.handleDragEnd],
    fun s act activeId overId hfc => ?_, ?_⟩
  · simp only [Kanban.handleDragEnd]
    split
    · rfl
    · rw [hfc]
  · intro s act e ts' act' h
    obtain ⟨activeId, over⟩ := e
    simp only [Kanban.handleDragEnd] at h
    split at h
    · simp only [Option.some.injEq, Prod.mk.injEq] at h
      exact Or.inr ⟨h.1.symm, h.2.symm⟩
    · split at h
      · simp only [Option.some.injEq, Prod.mk.injEq] at h
        exact Or.inr ⟨h.1.symm, h.2.symm⟩
      · split at h
        · simp only [Option.some.injEq, Prod.mk.injEq] at h
          exact Or.inr ⟨h.1.symm, h.2.symm⟩
        · split at h
          case h_1 => cases h
          case h_2 =>
            simp only [Option.some.injEq, Prod.mk.injEq] at h
            exact Or.inl h.2.symm

/-- C2 counterexample: on the Kanban page, a drag that ends with no drop
target returns early and leaves `activeTask` set (not null), contrary to
the claim. -/
theorem claim_C2_counterexample :
    Kanban.handleDragEnd Kanban.initialTasks
      (some ⟨"task-1", "Research competitors", "High"⟩) ⟨"task-1", none⟩
      = some (Kanban.initialTasks,
          some ⟨"task-1", "Research competitors", "High"⟩) ∧
    some (⟨"task-1", "Research competitors", "High"⟩ : Kanban.Task)
      ≠ none :=
  ⟨rfl, by decide⟩

/-- Witness for C2 (amended): the active-column-not-found clause and the
cleared-on-update clause at concrete drags. -/
theorem claim_C2_witness :
    Kanban.handleDragEnd Kanban.initialTasks none
      ⟨"task-99", some "task-1"⟩ = some (Kanban.initialTasks, none) ∧
    ((none : Option Kanban.Task) = none ∨
      ([("to-do",
          [⟨"task-2", "Update documentation", "Medium"⟩,
           ⟨"task-3", "Review project scope", "Low"⟩]),
        ("in-progress",
          [⟨"task-1", "Research competitors", "High"⟩,
           ⟨"task-4", "Design landing page", "High"⟩,
           ⟨"task-5", "Implement drag and drop", "Medium"⟩]),
        ("completed",
          [⟨"task-6", "Team meeting", "High"⟩,
           ⟨"task-7", "Set up project repository", "Medium"⟩])]
          = Kanban.initialTasks ∧
        (none : Option Kanban.Task)
          = some ⟨"task-1", "Research competitors", "High"⟩)) :=
  ⟨claim_C2_amended.2.2.2.1 Kanban.initialTasks none "task-99" "task-1"
      (by decide),
   claim_C2_amended.2.2.2.2 Kanban.initialTasks
      (some ⟨"task-1", "Research competitors", "High"⟩)
      ⟨"task-1", some "task-4"⟩ _ none (by decide)⟩

/-- C8 (amended): every completed drag-end update preserves the multiset
of items: on the sortable-list and custom-overlay pages the new list is a
permutation of the old one, and on the Kanban board — provided no task
identifier equals a column key — the union of all columns holds exactly
the same tasks as before. -/
theorem claim_C8_amended :
    (∀ (items : List Sortable.Item) (e : DragEndEvt)
        (l' : List Sortable.Item),
        Sortable.handleDragEnd items e = some l' → l'.Perm items) ∧
    (∀ (items : List Overlay.FileItem) (act : Option Overlay.FileItem)
        (e : DragEndEvt) (l' : List Overlay.FileItem),
        (Overlay.handleDragEnd items act e).1 = some l' →
        l'.Perm items) ∧
    (∀ (s : Kanban.Board) (act : Option Kanban.Task) (e : DragEndEvt)
        (ts' : Kanban.Board) (act' : Option Kanban.Task), KDisj s →
        Kanban.handleDragEnd s act e = some (ts', act') →
        (allItems ts').Perm (allItems s)) := by
  refine ⟨fun items e l' h => ?_, fun items act e l' h => ?_,
    fun s act e ts' act' hd h => ?_⟩
  · obtain ⟨activeId, over⟩ := e
    simp only [Sortable.handleDragEnd] at h
    split at h
    · cases h; exact List.Perm.refl _
    · split at h
      · exact arrayMove_perm _ _ _ _ h
      · cases h; exact List.Perm.refl _
  · obtain ⟨activeId, over⟩ := e
    simp only [Overlay.handleDragEnd] at h
    split at h
    · cases h; exact List.Perm.refl _
    · split at h
      · exact arrayMove_perm _ _ _ _ h
      · cases h; exact List.Perm.refl _
  · rw [List.perm_iff_count]
    intro t
    rw [List.count_eq_countP, List.count_eq_countP]
    exact kanban_handleDragEnd_countP s act e ts' act' _ hd h

/-- C5 (amended): on the sortable list, when the active item `a` (first
item whose id is the active id, at index `i`) and the over item `b` (at
index `j`) are distinct items of the list, `handleDragEnd` moves `a` to
`b`'s former index `j`, and `b` ends up adjacent to it: at `j - 1` when
`a` came from before `b` (so `a` then follows `b`), and at `j + 1` when
`a` came from after `b` (so `a` then precedes `b`).  `a` precedes `b`
exactly when `i > j`, not in every case as claimed. -/
theorem claim_C5_amended (l : List Sortable.Item) (i j : Nat)
    (a b : Sortable.Item)
    (ha : l.get? i = some a) (hb : l.get? j = some b)
    (hfa : l.findIdx? (fun x => x.id == a.id) = some i)
    (hfb : l.findIdx? (fun x => x.id == b.id) = some j)
    (hne : a.id ≠ b.id) (hij : i ≠ j) :
    Sortable.handleDragEnd l ⟨a.id, some b.id⟩
      = some ((l.eraseIdx i).insertIdx j a) ∧
    ((l.eraseIdx i).insertIdx j a).get? j = some a ∧
    ((l.eraseIdx i).insertIdx j a).get? (if i < j then j - 1 else j + 1)
      = some b := by
  have hilen : i < l.length := (List.get?_eq_some.mp ha).1
  have hjlen : j < l.length := (List.get?_eq_some.mp hb).1
  have hlen' : (l.eraseIdx i).length = l.length - 1 :=
    List.length_eraseIdx_of_lt hilen
  have hjlen' : j ≤ (l.eraseIdx i).length := by omega
  refine ⟨?_, ?_, ?_⟩
  · simp only [Sortable.handleDragEnd]
    rw [if_pos hne]
    rw [findIndex_of_findIdx? _ _ _ hfa, findIndex_of_findIdx? _ _ _ hfb]
    simp only [Js.arrayMove, Js.spliceRemoved?, Js.spliceRemove1,
      Js.spliceInsert1]
    rw [spliceStart_coe _ _ (Nat.le_of_lt hilen)]
    rw [ha]
    rw [if_neg (by omega : ¬((j : Nat) : Int) < 0)]
    rw [hlen']
    rw [spliceStart_coe _ _ (by omega)]
  · exact get?_insertIdx_self' (l.eraseIdx i) j a hjlen'
  · by_cases hlt : i < j
    · rw [if_pos hlt]
      rw [get?_insertIdx_lt _ _ _ _ (by omega)]
      rw [get?_eraseIdx_ge _ _ _ (by omega)]
      have hj1 : j - 1 + 1 = j := by omega
      rw [hj1]
      exact hb
    · rw [if_neg hlt]
      have hji : j < i := by omega
      rw [get?_insertIdx_succ _ _ _ _ hjlen' (Nat.le_refl j)]
      rw [get?_eraseIdx_lt _ _ _ hji]
      exact hb

/-- C5 counterexample: dragging item "1" onto item "2" on the page's
initial list (a downward drag) leaves "1" at index 1 and "2" at index 0,
so the active item does not precede the over item. -/
theorem claim_C5_counterexample :
    (Sortable.handleDragEnd Sortable.initialItems ⟨"1", some "2"⟩).map
      (fun r => (r.findIdx (fun x => x.id == "1"),
        r.findIdx (fun x => x.id == "2"))) = some (1, 0) := by
  decide

/-- Witness for C5 (amended): dragging item "5" (index 4) onto item "2"
(index 1) on the initial list. -/
theorem claim_C5_witness :
    Sortable.handleDragEnd Sortable.initialItems ⟨"5", some "2"⟩
      = some ((Sortable.initialItems.eraseIdx 4).insertIdx 1
          ⟨"5", "Create a sortable list", false⟩) ∧
    ((Sortable.initialItems.eraseIdx 4).insertIdx 1
        ⟨"5", "Create a sortable list", false⟩).get? 1
      = some ⟨"5", "Create a sortable list", false⟩ ∧
    ((Sortable.initialItems.eraseIdx 4).insertIdx 1
        ⟨"5", "Create a sortable list", false⟩).get?
        (if 4 < 1 then 1 - 1 else 1 + 1)
      = some ⟨"2", "Build a to-do app", false⟩ :=
  claim_C5_amended Sortable.initialItems 4 1
    ⟨"5", "Create a sortable list", false⟩
    ⟨"2", "Build a to-do app", false⟩
    (by decide) (by decide) (by decide) (by decide) (by decide) (by decide)

/-- C7 (amended): on the multiple-containers page, when the active
container is resolved and nonempty-named, and the destination
`findContainer(overId) || overId` is an existing, distinct container,
`handleDragEnd` removes the active id from the source array (its first
occurrence, by splice at its index — provided the active id actually sits
in that array, as it does whenever it is not itself a container key) and
appends it to the destination array; when the two containers are equal or
the active container cannot be resolved the state is unchanged; but when
the destination falls back to an over id that is not an existing
container, the update throws (modelled as `none`) instead of leaving the
state unchanged. -/
theorem claim_C7_amended :
    (∀ (s : MC.Containers) (activeId overId ac oc : String)
        (activeItems overItems : List String),
        MC.findContainer s activeId = some ac →
        (MC.findContainer s overId).getD overId = oc →
        objGet s ac = some activeItems →
        objGet s oc = some overItems →
        ac ≠ "" → oc ≠ "" → ac ≠ oc → activeId ∈ activeItems →
        MC.handleDragEnd s ⟨activeId, some overId⟩
          = some (objSet (objSet s ac (activeItems.erase activeId)) oc
              (overItems ++ [activeId]))) ∧
    (∀ (s : MC.Containers) (activeId overId ac : String),
        MC.findContainer s activeId = some ac →
        (MC.findContainer s overId).getD overId = ac →
        MC.handleDragEnd s ⟨activeId, some overId⟩ = some s) ∧
    (∀ (s : MC.Containers) (activeId overId : String),
        MC.findContainer s activeId = none →
        MC.handleDragEnd s ⟨activeId, some overId⟩ = some s) ∧
    (∀ (s : MC.Containers) (activeId overId ac : String),
        MC.findContainer s activeId = some ac →
        MC.findContainer s overId = none →
        ac ≠ "" → overId ≠ "" → ac ≠ overId →
        MC.handleDragEnd s ⟨activeId, some overId⟩ = none) := by
  refine ⟨?_, ?_, ?_, ?_⟩
  · intro s activeId overId ac oc activeItems overItems hac hoc ha hov
      hac' hoc' hne hmem
    simp only [MC.handleDragEnd, hac, hoc, ha, hov]
    rw [if_neg (by simp [hac', hoc', hne])]
    rw [spliceRemove1_findIndex_eq_erase activeItems activeId hmem]
  · intro s activeId overId ac hac hoc
    simp [MC.handleDragEnd, hac, hoc]
  · intro s activeId overId hfc
    simp only [MC.handleDragEnd, hfc]
  · intro s activeId overId ac hac hfo hac' hov' hne
    have hgd : (MC.findContainer s overId).getD overId = overId := by
      rw [hfo]
      rfl
    have hnone : objGet s overId = none := findContainer_none_objGet s
      overId hfo
    have hsome := findContainer_isSome_objGet s activeId ac hac
    obtain ⟨activeItems, ha⟩ := Option.isSome_iff_exists.mp hsome
    simp only [MC.handleDragEnd, hac, hgd, ha, hnone]
    rw [if_neg (by simp [hac', hov', hne])]

/-- C7 counterexample: with the page's initial state, a drag event whose
over id "x" resolves to no container falls back to "x" itself, and the
update then reads a missing key and throws (modelled as `none`) instead
of leaving the state unchanged. -/
theorem claim_C7_counterexample :
    MC.findContainer MC.initialState "x" = none ∧
    MC.handleDragEnd MC.initialState ⟨"item-1", some "x"⟩ = none ∧
    MC.handleDragEnd MC.initialState ⟨"item-1", some "x"⟩
      ≠ some MC.initialState :=
  ⟨by decide, by decide, by decide⟩

/-- Witness for C7 (amended): all four clauses at concrete drags on the
initial state. -/
theorem claim_C7_witness :
    MC.handleDragEnd MC.initialState ⟨"item-1", some "Container B"⟩
      = some (objSet (objSet MC.initialState "Container A"
            ((["item-1", "item-2"] : List String).erase "item-1"))
          "Container B" (["item-3"] ++ ["item-1"])) ∧
    MC.handleDragEnd MC.initialState ⟨"item-1", some "Container A"⟩
      = some MC.initialState ∧
    MC.handleDragEnd MC.initialState ⟨"item-99", some "Container B"⟩
      = some MC.initialState ∧
    MC.handleDragEnd MC.initialState ⟨"item-1", some "x"⟩ = none :=
  ⟨claim_C7_amended.1 MC.initialState "item-1" "Container B" "Container A"
      "Container B" ["item-1", "item-2"] ["item-3"] (by decide) (by decide)
      (by decide) (by decide) (by decide) (by decide) (by decide)
      (by decide),
   claim_C7_amended.2.1 MC.initialState "item-1" "Container A"
      "Container A" (by decide) (by decide),
   claim_C7_amended.2.2.1 MC.initialState "item-99" "Container B"
      (by decide),
   claim_C7_amended.2.2.2 MC.initialState "item-1" "x" "Container A"
      (by decide) (by decide) (by decide) (by decide) (by decide)⟩

/-- C8 counterexample: on the Kanban board the multiset of tasks is not
always preserved.  When a task id ("to-do") is also a column key and the
active task's own column is that key, the cross-column update overwrites
the removal: the active task ends up twice on the board. -/
theorem claim_C8_counterexample :
    Kanban.handleDragEnd
      [("to-do", [⟨"task-A", "a", "High"⟩]),
       ("in-progress", [⟨"to-do", "b", "Low"⟩]),
       ("completed", [])] none ⟨"task-A", some "to-do"⟩
      = some ([("to-do",
            [⟨"task-A", "a", "High"⟩, ⟨"task-A", "a", "High"⟩]),
          ("in-progress", [⟨"to-do", "b", "Low"⟩]),
          ("completed", [])], none) ∧
    (allItems
      [("to-do", [⟨"task-A", "a", "High"⟩, ⟨"task-A", "a", "High"⟩]),
       ("in-progress", [⟨"to-do", "b", "Low"⟩]),
       ("completed", ([] : List Kanban.Task))]).countP
      (fun t => t == ⟨"task-A", "a", "High"⟩) = 2 ∧
    (allItems
      [("to-do", [⟨"task-A", "a", "High"⟩]),
       ("in-progress", [⟨"to-do", "b", "Low"⟩]),
       ("completed", ([] : List Kanban.Task))]).countP
      (fun t => t == ⟨"task-A", "a", "High"⟩) = 1 :=
  ⟨by decide, by decide, by decide⟩

/-- Witness for C8 (amended) at a concrete drag on each page. -/
theorem claim_C8_witness :
    ([⟨"2", "Build a to-do app", false⟩, ⟨"1", "Learn React basics", true⟩,
      ⟨"3", "Learn about React hooks", false⟩,
      ⟨"4", "Explore dnd-kit library", true⟩,
      ⟨"5", "Create a sortable list", false⟩,
      ⟨"6", "Add keyboard accessibility", false⟩] : List Sortable.Item).Perm
      Sortable.initialItems ∧
    ([⟨"file-2", "Photo.jpg", "image", "3.8 MB"⟩,
      ⟨"file-3", "Presentation.pptx", "presentation", "5.2 MB"⟩,
      ⟨"file-1", "Document.pdf", "pdf", "2.4 MB"⟩,
      ⟨"file-4", "Spreadsheet.xlsx", "spreadsheet", "1.7 MB"⟩,
      ⟨"file-5", "Archive.zip", "archive", "8.1 MB"⟩] :
        List Overlay.FileItem).Perm Overlay.fileItems ∧
    (allItems [("to-do",
        [⟨"task-2", "Update documentation", "Medium"⟩,
         ⟨"task-3", "Review project scope", "Low"⟩]),
      ("in-progress",
        [⟨"task-1", "Research competitors", "High"⟩,
         ⟨"task-4", "Design landing page", "High"⟩,
         ⟨"task-5", "Implement drag and drop", "Medium"⟩]),
      ("completed",
        [⟨"task-6", "Team meeting", "High"⟩,
         ⟨"task-7", "Set up project repository", "Medium"⟩])]).Perm
      (allItems Kanban.initialTasks) :=
  ⟨claim_C8_amended.1 Sortable.initialItems ⟨"1", some "2"⟩ _ (by decide),
   claim_C8_amended.2.1 Overlay.fileItems none ⟨"file-1", some "file-3"⟩ _
     (by decide),
   claim_C8_amended.2.2 Kanban.initialTasks none ⟨"task-1", some "task-4"⟩
     _ none (by decide) (by decide)⟩

end DndSpec
